import Mathlib

/-!
Shallow embedding of the roller-coaster track geometry engine
(`src/client/src/lib/stores/useRollerCoaster.tsx` and
`src/client/src/components/game/Track.tsx`).

Vectors are modelled over `ℝ`; `THREE.Vector3` operations are translated
pointwise.  The module-level mutable `pointCounter` is threaded through the
state explicitly.  The store file contains two variants of
`createLoopAtPoint` (the transition-synthesis variant at lines 123-355 and
the blend variant at lines 501-609); both are embedded below.
-/

noncomputable section

namespace Coaster

/-- Model of `THREE.Vector3`: three real coordinates. -/
structure Vec3 where
  x : ℝ
  y : ℝ
  z : ℝ

namespace Vec3

def add (v w : Vec3) : Vec3 := ⟨v.x + w.x, v.y + w.y, v.z + w.z⟩

def sub (v w : Vec3) : Vec3 := ⟨v.x - w.x, v.y - w.y, v.z - w.z⟩

def multiplyScalar (v : Vec3) (s : ℝ) : Vec3 := ⟨v.x * s, v.y * s, v.z * s⟩

def cross (a b : Vec3) : Vec3 :=
  ⟨a.y * b.z - a.z * b.y, a.z * b.x - a.x * b.z, a.x * b.y - a.y * b.x⟩

def length (v : Vec3) : ℝ := Real.sqrt (v.x ^ 2 + v.y ^ 2 + v.z ^ 2)

/-- THREE.Vector3.normalize divides by `length || 1`; over `ℝ` (where
`x / 0 = 0`) dividing by the length gives the same result in every case,
since `length v = 0` only for the zero vector. -/
def normalize (v : Vec3) : Vec3 := v.multiplyScalar v.length⁻¹

def distanceTo (v w : Vec3) : ℝ := (v.sub w).length

/-- Model of the JS pattern `v.y = 0` applied to a fresh clone. -/
def withYZero (v : Vec3) : Vec3 := ⟨v.x, 0, v.z⟩

def addScaledVector (v w : Vec3) (s : ℝ) : Vec3 := v.add (w.multiplyScalar s)

end Vec3

/-- Cubic Hermite interpolation exactly as the `hermite` closure in
`createLoopAtPoint` (duplicated twice in the source with identical body). -/
def hermite (t : ℝ) (p0 t0 p1 t1 : Vec3) (scale : ℝ) : Vec3 :=
  let t2 := t * t
  let t3 := t2 * t
  let h00 := 2 * t3 - 3 * t2 + 1
  let h10 := t3 - 2 * t2 + t
  let h01 := -2 * t3 + 3 * t2
  let h11 := t3 - t2
  ((((Vec3.mk 0 0 0).addScaledVector p0 h00).addScaledVector t0 (h10 * scale)).addScaledVector
      p1 h01).addScaledVector t1 (h11 * scale)

/-! Point ids.  The source generates ids as the string `point-${++pointCounter}`;
we keep the string representation and prove the formatting injective. -/

/-- Structural model of the decimal digit list produced by `Nat.toDigitsCore`. -/
def decDigits (n : Nat) : List Char :=
  if n < 10 then [Nat.digitChar n]
  else decDigits (n / 10) ++ [Nat.digitChar (n % 10)]
termination_by n
decreasing_by
  exact Nat.div_lt_self (by omega) (by norm_num)

/-- Numeric value of a decimal digit character (partial inverse of `Nat.digitChar`). -/
def digitVal (c : Char) : Nat :=
  if c = '1' then 1 else if c = '2' then 2 else if c = '3' then 3 else
  if c = '4' then 4 else if c = '5' then 5 else if c = '6' then 6 else
  if c = '7' then 7 else if c = '8' then 8 else if c = '9' then 9 else 0

/-- Value of a big-endian decimal digit string. -/
def digitsVal : List Char → Nat
  | [] => 0
  | c :: cs => digitVal c * 10 ^ cs.length + digitsVal cs

theorem digitVal_digitChar {n : Nat} (h : n < 10) : digitVal (Nat.digitChar n) = n := by
  interval_cases n <;> rfl

theorem digitsVal_append_singleton (xs : List Char) (c : Char) :
    digitsVal (xs ++ [c]) = 10 * digitsVal xs + digitVal c := by
  induction xs with
  | nil => simp [digitsVal]
  | cons a xs ih =>
      show digitVal a * 10 ^ (xs ++ [c]).length + digitsVal (xs ++ [c]) =
        10 * (digitVal a * 10 ^ xs.length + digitsVal xs) + digitVal c
      rw [ih, List.length_append, List.length_cons, List.length_nil]
      ring

theorem digitsVal_decDigits (n : Nat) : digitsVal (decDigits n) = n := by
  induction n using Nat.strong_induction_on with
  | _ n ih =>
      rw [decDigits]
      split
      · simp [digitsVal, digitVal_digitChar ‹n < 10›]
      · rw [digitsVal_append_singleton,
          ih (n / 10) (Nat.div_lt_self (by omega) (by norm_num)),
          digitVal_digitChar (Nat.mod_lt _ (by norm_num))]
        omega

theorem decDigits_injective : Function.Injective decDigits := fun m n h => by
  have := congrArg digitsVal h
  rwa [digitsVal_decDigits, digitsVal_decDigits] at this

theorem toDigitsCore_eq_decDigits :
    ∀ (fuel n : Nat) (ds : List Char), n < fuel →
      Nat.toDigitsCore 10 fuel n ds = decDigits n ++ ds := by
  intro fuel
  induction fuel with
  | zero => intro n ds h; omega
  | succ f ih =>
      intro n ds h
      show (if n / 10 = 0 then Nat.digitChar (n % 10) :: ds
            else Nat.toDigitsCore 10 f (n / 10) (Nat.digitChar (n % 10) :: ds)) =
        decDigits n ++ ds
      by_cases h10 : n / 10 = 0
      · have hn : n < 10 := by omega
        rw [if_pos h10, decDigits, if_pos hn, Nat.mod_eq_of_lt hn]
        simp
      · have hge : 10 ≤ n := by
          by_contra hc
          exact h10 (Nat.div_eq_of_lt (by omega))
        have hfuel : n / 10 < f := by
          have := Nat.div_lt_self (show 0 < n by omega) (show 1 < 10 by norm_num)
          omega
        rw [if_neg h10, ih (n / 10) (Nat.digitChar (n % 10) :: ds) hfuel]
        conv_rhs => rw [decDigits, if_neg (show ¬n < 10 by omega)]
        simp

theorem natRepr_injective : Function.Injective Nat.repr := fun m n h => by
  have hm : Nat.repr m = (decDigits m).asString := by
    show (Nat.toDigits 10 m).asString = _
    rw [Nat.toDigits, toDigitsCore_eq_decDigits (m + 1) m [] (Nat.lt_succ_self m),
      List.append_nil]
  have hn : Nat.repr n = (decDigits n).asString := by
    show (Nat.toDigits 10 n).asString = _
    rw [Nat.toDigits, toDigitsCore_eq_decDigits (n + 1) n [] (Nat.lt_succ_self n),
      List.append_nil]
  rw [hm, hn] at h
  exact decDigits_injective (by simpa [List.asString] using congrArg String.data h)

theorem natRepr_string_injective {m n : Nat}
    (h : (Nat.repr m).data = (Nat.repr n).data) : m = n :=
  natRepr_injective (String.ext h)

/-- Id produced for counter value `n`: the source formats `point-${n}`. -/
def mkId (n : Nat) : String := "point-" ++ Nat.repr n

theorem mkId_injective : Function.Injective mkId := fun m n h => by
  have hdata := congrArg String.data h
  simp only [mkId, String.data_append] at hdata
  exact natRepr_string_injective (List.append_cancel_left hdata)

/-- Model of the `LoopMetadata` interface. -/
structure LoopMetadata where
  entryPos : Vec3
  forward : Vec3
  up : Vec3
  right : Vec3
  radius : ℝ
  theta : ℝ

/-- Model of the `TrackPoint` interface (optional `loopMeta`). -/
structure TrackPoint where
  id : String
  position : Vec3
  tilt : ℝ
  loopMeta : Option LoopMetadata := none

/-- The slice of the zustand store state the geometry engine reads and
writes, together with the module-level mutable `pointCounter` threaded in
explicitly. -/
structure CoasterState where
  trackPoints : List TrackPoint
  selectedPointId : Option String
  pointCounter : Nat
  rideProgress : ℝ
  isRiding : Bool

def initialState : CoasterState :=
  { trackPoints := [], selectedPointId := none, pointCounter := 0,
    rideProgress := 0, isRiding := false }

/-- `addTrackPoint`: appends a fresh point with tilt `0` and no `loopMeta`. -/
def addTrackPoint (position : Vec3) (s : CoasterState) : CoasterState :=
  { s with
    pointCounter := s.pointCounter + 1,
    trackPoints := s.trackPoints ++
      [{ id := mkId (s.pointCounter + 1), position := position, tilt := 0 }] }

/-- `updateTrackPoint`: replaces the position at a matching id. -/
def updateTrackPoint (id : String) (position : Vec3) (s : CoasterState) : CoasterState :=
  { s with
    trackPoints := s.trackPoints.map fun p =>
      if p.id = id then { p with position := position } else p }

/-- `updateTrackPointTilt`: replaces the tilt at a matching id. -/
def updateTrackPointTilt (id : String) (tilt : ℝ) (s : CoasterState) : CoasterState :=
  { s with
    trackPoints := s.trackPoints.map fun p =>
      if p.id = id then { p with tilt := tilt } else p }

/-- `removeTrackPoint`: filters the id out and clears a matching selection. -/
def removeTrackPoint (id : String) (s : CoasterState) : CoasterState :=
  { s with
    trackPoints := s.trackPoints.filter fun p => p.id ≠ id,
    selectedPointId := if s.selectedPointId = some id then none else s.selectedPointId }

/-- Loop constants. Modelled from the spec: the source imports `LOOP_RADIUS`,
`HELIX_SEPARATION`, `LOOP_POINTS_COUNT`, `EXIT_SEPARATION`,
`FORWARD_SEPARATION` from `@/lib/config/scale`, a file not present under
`src/`; the spec gives reference values `R = 4` and `N = 20` and leaves the
separations unspecified, so all five appear here as parameters. -/
structure LoopConfig where
  loopRadius : ℝ
  helixSeparation : ℝ
  exitSeparation : ℝ
  forwardSeparation : ℝ
  loopPointsCount : Nat

/-- Forward frame vector of `createLoopAtPoint` (both variants share this
code): horizontal direction from the predecessor to the anchor, with the
`(1,0,0)` fallback for a missing predecessor or a near-zero segment. -/
def loopForward (pts : List TrackPoint) (i : Nat) (entryPos : Vec3) : Vec3 :=
  if 0 < i then
    match pts[i - 1]? with
    | some prevPoint =>
        let f := (entryPos.sub prevPoint.position).withYZero
        (if f.length < 0.1 then Vec3.mk 1 0 0 else f).normalize
    | none => Vec3.mk 1 0 0
  else Vec3.mk 1 0 0

/-- Approach points of the transition-synthesis variant (lines 152-212):
two Hermite samples bridging the predecessor into the loop entry, or none
when the anchor is the first point.  `c` is the counter value before the
first of these points is created. -/
def approachPointsOf (cfg : LoopConfig) (pts : List TrackPoint) (i c : Nat)
    (entryPos forward : Vec3) : List TrackPoint :=
  if 0 < i then
    match pts[i - 1]? with
    | none => []
    | some prevPoint =>
        let prevPos := prevPoint.position
        let legacyDir0 :=
          match (if 1 < i then pts[i - 2]? else none) with
          | some prevPrevPoint => (prevPos.sub prevPrevPoint.position).normalize
          | none => (entryPos.sub prevPos).normalize
        let legacyDir := legacyDir0.withYZero.normalize
        let entryAnchor := entryPos.sub (forward.multiplyScalar (cfg.loopRadius * 0.3))
        let dist1 := prevPos.distanceTo entryAnchor
        let dist2 := entryAnchor.distanceTo entryPos
        [{ id := mkId (c + 1),
           position := hermite 0.5 prevPos legacyDir entryAnchor forward (dist1 * 0.5),
           tilt := 0 },
         { id := mkId (c + 2),
           position := hermite 0.5 entryAnchor forward entryPos forward (dist2 * 0.5),
           tilt := 0 }]
  else []

/-- Loop-body point number `i` (1-based) of the transition-synthesis
variant (lines 216-243).  `c` is the counter value before the first body
point is created. -/
def loopBodyPoint (cfg : LoopConfig) (c : Nat) (entryPos forward right : Vec3)
    (i : Nat) : TrackPoint :=
  let t : ℝ := (i : ℝ) / (cfg.loopPointsCount : ℝ)
  let theta := t * Real.pi * 2
  let forwardOffset := Real.sin theta * cfg.loopRadius
  let verticalOffset := (1 - Real.cos theta) * cfg.loopRadius
  let lateralOffset := t * cfg.helixSeparation
  { id := mkId (c + i),
    position := ⟨entryPos.x + forward.x * forwardOffset + right.x * lateralOffset,
                 entryPos.y + verticalOffset,
                 entryPos.z + forward.z * forwardOffset + right.z * lateralOffset⟩,
    tilt := 0,
    loopMeta := some ⟨entryPos, forward, ⟨0, 1, 0⟩, right, cfg.loopRadius, theta⟩ }

/-- The full loop body of the transition-synthesis variant. -/
def loopBodyPoints (cfg : LoopConfig) (c : Nat) (entryPos forward right : Vec3) :
    List TrackPoint :=
  (List.range cfg.loopPointsCount).map fun j =>
    loopBodyPoint cfg c entryPos forward right (j + 1)

/-- Second exit-transition stage (lines 304-339): two Hermite samples from
the offset anchor to the chosen downstream target. -/
def transitionStage2 (c : Nat) (offsetLoopExit forward : Vec3)
    (targetPoint : TrackPoint) (pointAfterTarget : Option TrackPoint) : List TrackPoint :=
  let targetPos := targetPoint.position
  let legacyTangent0 :=
    match pointAfterTarget with
    | some q => (q.position.sub targetPos).normalize
    | none => (targetPos.sub offsetLoopExit).normalize
  let legacyTangent := legacyTangent0.withYZero.normalize
  let dist2 := offsetLoopExit.distanceTo targetPos
  [{ id := mkId (c + 3),
     position := hermite 0.33 offsetLoopExit forward targetPos legacyTangent (dist2 * 0.5),
     tilt := 0 },
   { id := mkId (c + 4),
     position := hermite 0.66 offsetLoopExit forward targetPos legacyTangent (dist2 * 0.5),
     tilt := 0 }]

/-- Exit-transition points (lines 245-339): always the first-stage Hermite
sample and the offset anchor itself; two further samples when a downstream
target (`next`, `nextNext` or `nextNextNext`) exists.  The target choice
mirrors `nextNextNextPoint || nextNextPoint || nextPoint` and the
`pointAfterTarget` index choice of lines 308-310. -/
def transitionPointsOf (cfg : LoopConfig) (pts : List TrackPoint) (i c : Nat)
    (forward right : Vec3) (loopExit : Vec3) : List TrackPoint :=
  let offsetLoopExit :=
    (loopExit.add (forward.multiplyScalar cfg.forwardSeparation)).add
      (right.multiplyScalar cfg.exitSeparation)
  let exitTangent := forward
  let dist1 := loopExit.distanceTo offsetLoopExit
  let base :=
    [{ id := mkId (c + 1),
       position := hermite 0.5 loopExit exitTangent offsetLoopExit forward (dist1 * 0.6),
       tilt := 0 },
     { id := mkId (c + 2), position := offsetLoopExit, tilt := 0 }]
  match pts[i + 3]? with
  | some tp => base ++ transitionStage2 c offsetLoopExit forward tp pts[i + 4]?
  | none =>
    match pts[i + 2]? with
    | some tp => base ++ transitionStage2 c offsetLoopExit forward tp pts[i + 3]?
    | none =>
      match pts[i + 1]? with
      | some tp => base ++ transitionStage2 c offsetLoopExit forward tp pts[i + 2]?
      | none => base

/-- Skip count of the splice (line 343):
`nextNextNextPoint ? 3 : (nextNextPoint ? 2 : 1)`. -/
def skipCountOf (pts : List TrackPoint) (i : Nat) : Nat :=
  if pts[i + 3]?.isSome then 3 else if pts[i + 2]?.isSome then 2 else 1

/-- Body of the transition-synthesis variant once the anchor has been
located at `pointIndex` (the `let` chain of lines 128-353). -/
def createLoopCore (cfg : LoopConfig) (s : CoasterState) (pointIndex : Nat)
    (entryPoint : TrackPoint) : CoasterState :=
  let pts := s.trackPoints
  let entryPos := entryPoint.position
  let forward := loopForward pts pointIndex entryPos
  let up : Vec3 := ⟨0, 1, 0⟩
  let right := (forward.cross up).normalize
  let c0 := s.pointCounter
  let approachPoints := approachPointsOf cfg pts pointIndex c0 entryPos forward
  let c1 := c0 + approachPoints.length
  let loopPoints := loopBodyPoints cfg c1 entryPos forward right
  let c2 := c1 + loopPoints.length
  let loopExit :=
    match loopPoints.getLast? with
    | some p => p.position
    | none => entryPos
  let transitions := transitionPointsOf cfg pts pointIndex c2 forward right loopExit
  let c3 := c2 + transitions.length
  let skipCount := skipCountOf pts pointIndex
  { s with
    trackPoints := pts.take pointIndex ++ approachPoints ++ [entryPoint] ++
      loopPoints ++ transitions ++ pts.drop (pointIndex + 1 + skipCount),
    pointCounter := c3 }

/-- Transition-synthesis variant of `createLoopAtPoint` (lines 123-355). -/
def createLoopAtPoint (cfg : LoopConfig) (id : String) (s : CoasterState) : CoasterState :=
  match s.trackPoints.findIdx? (fun p => p.id == id) with
  | none => s
  | some pointIndex =>
    match s.trackPoints[pointIndex]? with
    | none => s
    | some entryPoint => createLoopCore cfg s pointIndex entryPoint

/-- Lateral offset of the blend variant (lines 542-554): linear ramp up to
`t = 0.75`, then a smoothstep ease back. -/
def blendLateralOffset (t : ℝ) : ℝ :=
  if t < 0.75 then (t / 0.75) * 1.75
  else
    let blendT := (t - 0.75) / (1 - 0.75)
    let easeT := blendT * blendT * (3 - 2 * blendT)
    1.75 * (1 - easeT * 0.7)

/-- Loop-body point number `i` (1-based) of the blend variant
(lines 535-598), including the horizontal pull toward the next legacy
point over the final quarter. -/
def blendLoopPoint (c : Nat) (entryPos forward right : Vec3)
    (nextLegacy : Option TrackPoint) (i : Nat) : TrackPoint :=
  let t : ℝ := (i : ℝ) / 20
  let theta := t * Real.pi * 2
  let forwardOffset := Real.sin theta * 4
  let verticalOffset := (1 - Real.cos theta) * 4
  let lateralOffset := blendLateralOffset t
  let loopPos0 : Vec3 :=
    ⟨entryPos.x + forward.x * forwardOffset + right.x * lateralOffset,
     entryPos.y + verticalOffset,
     entryPos.z + forward.z * forwardOffset + right.z * lateralOffset⟩
  let loopPos :=
    match nextLegacy with
    | some np =>
        if 0.75 < t then
          let blendT := (t - 0.75) / (1 - 0.75)
          let easeT := blendT * blendT * (3 - 2 * blendT)
          let toNext := np.position.sub loopPos0
          let distToNext := toNext.length
          if 0.1 < distToNext then
            let toNextN := toNext.normalize
            let pullStrength := easeT * 0.3
            ⟨loopPos0.x + toNextN.x * pullStrength * 2, loopPos0.y,
             loopPos0.z + toNextN.z * pullStrength * 2⟩
          else loopPos0
        else loopPos0
    | none => loopPos0
  { id := mkId (c + i), position := loopPos, tilt := 0,
    loopMeta := some ⟨entryPos, forward, ⟨0, 1, 0⟩, right, 4, theta⟩ }

/-- The full loop body of the blend variant. -/
def blendLoopPoints (c : Nat) (entryPos forward right : Vec3)
    (nextLegacy : Option TrackPoint) : List TrackPoint :=
  (List.range 20).map fun j => blendLoopPoint c entryPos forward right nextLegacy (j + 1)

/-- Body of the blend variant once the anchor has been located. -/
def createLoopBlendCore (s : CoasterState) (pointIndex : Nat)
    (entryPoint : TrackPoint) : CoasterState :=
  let pts := s.trackPoints
  let entryPos := entryPoint.position
  let forward := loopForward pts pointIndex entryPos
  let up : Vec3 := ⟨0, 1, 0⟩
  let right := (forward.cross up).normalize
  let nextLegacy := pts[pointIndex + 1]?
  let loopPoints := blendLoopPoints s.pointCounter entryPos forward right nextLegacy
  { s with
    trackPoints := pts.take (pointIndex + 1) ++ loopPoints ++ pts.drop (pointIndex + 1),
    pointCounter := s.pointCounter + 20 }

/-- Blend variant of `createLoopAtPoint` (lines 501-609): inserts the loop
body directly after the anchor and keeps the whole original remainder. -/
def createLoopAtPointBlend (id : String) (s : CoasterState) : CoasterState :=
  match s.trackPoints.findIdx? (fun p => p.id == id) with
  | none => s
  | some pointIndex =>
    match s.trackPoints[pointIndex]? with
    | none => s
    | some entryPoint => createLoopBlendCore s pointIndex entryPoint

/-- Model of `THREE.CatmullRomCurve3` as constructed by `Track.tsx`: the
constructor arguments only (sampling is library code outside the repo). -/
structure CatmullRomCurve where
  points : List Vec3
  closed : Bool
  curveType : String
  tension : ℝ

/-- `getTrackCurve` (Track.tsx lines 107-111). -/
def getTrackCurve (trackPoints : List TrackPoint) (isLooped : Bool) :
    Option CatmullRomCurve :=
  if trackPoints.length < 2 then none
  else some { points := trackPoints.map (·.position), closed := isLooped,
              curveType := "catmullrom", tension := 0.5 }

/-- Rail offset constant (Track.tsx line 48). -/
def railOffset : ℝ := 0.3

/-- Per-sample rail normal (Track.tsx line 53):
`normalize((-tangent.z, 0, tangent.x))`. -/
def railNormal (tangent : Vec3) : Vec3 := (Vec3.mk (-tangent.z) 0 tangent.x).normalize

/-- Left rail sample (Track.tsx lines 55-59). -/
def leftRailPoint (point tangent : Vec3) : Vec3 :=
  ⟨point.x + (railNormal tangent).x * railOffset, point.y,
   point.z + (railNormal tangent).z * railOffset⟩

/-- Right rail sample (Track.tsx lines 60-64). -/
def rightRailPoint (point tangent : Vec3) : Vec3 :=
  ⟨point.x - (railNormal tangent).x * railOffset, point.y,
   point.z - (railNormal tangent).z * railOffset⟩

/-- `selectPoint`. -/
def selectPoint (id : Option String) (s : CoasterState) : CoasterState :=
  { s with selectedPointId := id }

/-- `clearTrack`. -/
def clearTrack (s : CoasterState) : CoasterState :=
  { s with trackPoints := [], selectedPointId := none, rideProgress := 0,
           isRiding := false }

theorem findIdx?_none_of_unknown {pts : List TrackPoint} {aid : String}
    (h : ∀ p ∈ pts, p.id ≠ aid) :
    pts.findIdx? (fun p => p.id == aid) = none := by
  rw [List.findIdx?_eq_none_iff]
  intro x hx
  simpa using h x hx

theorem createLoopAtPoint_found (cfg : LoopConfig) {s : CoasterState} {aid : String}
    {i : Nat} (hfind : s.trackPoints.findIdx? (fun p => p.id == aid) = some i)
    (hi : i < s.trackPoints.length) :
    createLoopAtPoint cfg aid s = createLoopCore cfg s i (s.trackPoints.get ⟨i, hi⟩) := by
  simp [createLoopAtPoint, hfind, List.getElem?_eq_getElem hi]

theorem createLoopAtPointBlend_found {s : CoasterState} {aid : String}
    {i : Nat} (hfind : s.trackPoints.findIdx? (fun p => p.id == aid) = some i)
    (hi : i < s.trackPoints.length) :
    createLoopAtPointBlend aid s = createLoopBlendCore s i (s.trackPoints.get ⟨i, hi⟩) := by
  simp [createLoopAtPointBlend, hfind, List.getElem?_eq_getElem hi]

theorem approachPointsOf_length (cfg : LoopConfig) {pts : List TrackPoint} {i : Nat}
    (hi : i < pts.length) (c : Nat) (entryPos forward : Vec3) :
    (approachPointsOf cfg pts i c entryPos forward).length = if 0 < i then 2 else 0 := by
  by_cases h : 0 < i
  · have hlt : i - 1 < pts.length := by omega
    simp [approachPointsOf, h, List.getElem?_eq_getElem hlt]
  · simp [approachPointsOf, h]

theorem loopBodyPoints_length (cfg : LoopConfig) (c : Nat) (entryPos forward right : Vec3) :
    (loopBodyPoints cfg c entryPos forward right).length = cfg.loopPointsCount := by
  simp [loopBodyPoints]

theorem transitionStage2_length (c : Nat) (offsetLoopExit forward : Vec3)
    (targetPoint : TrackPoint) (pointAfterTarget : Option TrackPoint) :
    (transitionStage2 c offsetLoopExit forward targetPoint pointAfterTarget).length = 2 := rfl

theorem transitionPointsOf_length (cfg : LoopConfig) (pts : List TrackPoint) (i c : Nat)
    (forward right loopExit : Vec3) :
    (transitionPointsOf cfg pts i c forward right loopExit).length =
      if i + 1 < pts.length then 4 else 2 := by
  by_cases h1 : i + 1 < pts.length
  · rcases h3 : pts[i + 3]? with _ | tp3
    · rcases h2 : pts[i + 2]? with _ | tp2
      · simp [transitionPointsOf, h3, h2, List.getElem?_eq_getElem h1, h1,
          transitionStage2_length]
      · simp [transitionPointsOf, h3, h2, h1, transitionStage2_length]
    · simp [transitionPointsOf, h3, h1, transitionStage2_length]
  · have h3n : pts[i + 3]? = none := List.getElem?_eq_none (by omega)
    have h2n : pts[i + 2]? = none := List.getElem?_eq_none (by omega)
    have h1n : pts[i + 1]? = none := List.getElem?_eq_none (by omega)
    simp [transitionPointsOf, h3n, h2n, h1n, h1]

theorem skipCountOf_eq (pts : List TrackPoint) (i : Nat) :
    skipCountOf pts i =
      if i + 4 ≤ pts.length then 3 else if i + 3 ≤ pts.length then 2 else 1 := by
  by_cases h3 : i + 3 < pts.length
  · simp [skipCountOf, List.getElem?_eq_getElem h3, show i + 4 ≤ pts.length by omega]
  · by_cases h2 : i + 2 < pts.length
    · simp [skipCountOf, List.getElem?_eq_none (show pts.length ≤ i + 3 by omega),
        List.getElem?_eq_getElem h2, show ¬i + 4 ≤ pts.length by omega,
        show i + 3 ≤ pts.length by omega]
    · simp [skipCountOf, List.getElem?_eq_none (show pts.length ≤ i + 3 by omega),
        List.getElem?_eq_none (show pts.length ≤ i + 2 by omega),
        show ¬i + 4 ≤ pts.length by omega, show ¬i + 3 ≤ pts.length by omega]

theorem blendLoopPoints_length (c : Nat) (entryPos forward right : Vec3)
    (nextLegacy : Option TrackPoint) :
    (blendLoopPoints c entryPos forward right nextLegacy).length = 20 := by
  simp [blendLoopPoints]

/-- C10: `addTrackPoint(p)` appends exactly one point at the tail with
position `p`, tilt `0` and no `loopMeta`; prior points and the selection
are unchanged. -/
theorem c10_addTrackPoint_appends (s : CoasterState) (pos : Vec3) :
    ∃ q : TrackPoint,
      (addTrackPoint pos s).trackPoints = s.trackPoints ++ [q] ∧
      q.position = pos ∧ q.tilt = 0 ∧ q.loopMeta = none ∧
      (addTrackPoint pos s).selectedPointId = s.selectedPointId :=
  ⟨{ id := mkId (s.pointCounter + 1), position := pos, tilt := 0 },
    rfl, rfl, rfl, rfl, rfl⟩

/-- C6: `updateTrackPoint`, `updateTrackPointTilt` and `removeTrackPoint`
with an id absent from the sequence leave the track-point list unchanged. -/
theorem c6_unknown_id_noop (s : CoasterState) (pid : String) (pos : Vec3) (tl : ℝ)
    (h : ∀ p ∈ s.trackPoints, p.id ≠ pid) :
    (updateTrackPoint pid pos s).trackPoints = s.trackPoints ∧
    (updateTrackPointTilt pid tl s).trackPoints = s.trackPoints ∧
    (removeTrackPoint pid s).trackPoints = s.trackPoints := by
  refine ⟨?_, ?_, ?_⟩
  · show s.trackPoints.map _ = s.trackPoints
    rw [List.map_congr_left (g := fun p => p) fun p hp => if_neg (h p hp), List.map_id']
  · show s.trackPoints.map _ = s.trackPoints
    rw [List.map_congr_left (g := fun p => p) fun p hp => if_neg (h p hp), List.map_id']
  · show s.trackPoints.filter _ = s.trackPoints
    rw [List.filter_eq_self.mpr fun p hp => by simpa using h p hp]

/-- Witness for C6 at a concrete one-point state and the absent id `point-2`. -/
theorem c6_unknown_id_noop_witness :
    (updateTrackPoint (mkId 2) ⟨1, 2, 3⟩
        { trackPoints := [{ id := mkId 1, position := ⟨0, 0, 0⟩, tilt := 0 }],
          selectedPointId := none, pointCounter := 1,
          rideProgress := 0, isRiding := false }).trackPoints =
      [{ id := mkId 1, position := ⟨0, 0, 0⟩, tilt := 0 }] :=
  (c6_unknown_id_noop _ (mkId 2) ⟨1, 2, 3⟩ 0
    (by intro p hp; simp only [List.mem_singleton] at hp; subst hp; decide)).1

/-- C7: selecting `x` then removing `x` clears the selection, while
removing an id other than the selected one leaves the selection unchanged. -/
theorem c7_remove_clears_selection (s : CoasterState) (x y : String)
    (_hx : ∃ p ∈ s.trackPoints, p.id = x)
    (hy : s.selectedPointId ≠ some y) :
    (removeTrackPoint x (selectPoint (some x) s)).selectedPointId = none ∧
    (removeTrackPoint y s).selectedPointId = s.selectedPointId := by
  constructor
  · simp [removeTrackPoint, selectPoint]
  · simp [removeTrackPoint, hy]

/-- Witness for C7 at a concrete one-point state. -/
theorem c7_remove_clears_selection_witness :
    (removeTrackPoint (mkId 1) (selectPoint (some (mkId 1))
        { trackPoints := [{ id := mkId 1, position := ⟨0, 0, 0⟩, tilt := 0 }],
          selectedPointId := none, pointCounter := 1,
          rideProgress := 0, isRiding := false })).selectedPointId = none :=
  (c7_remove_clears_selection _ (mkId 1) (mkId 2)
    ⟨_, List.mem_singleton_self _, rfl⟩ (by decide)).1

/-- C5: `getTrackCurve` returns `none` on fewer than two points and a
curve otherwise. -/
theorem c5_getTrackCurve_arity (pts : List TrackPoint) (looped : Bool) :
    (pts.length < 2 → getTrackCurve pts looped = none) ∧
    (2 ≤ pts.length → ∃ curve, getTrackCurve pts looped = some curve) := by
  constructor
  · intro h
    simp [getTrackCurve, h]
  · intro h
    refine ⟨{ points := pts.map (·.position), closed := looped,
              curveType := "catmullrom", tension := 0.5 }, ?_⟩
    simp [getTrackCurve, Nat.not_lt.mpr h]

/-- Witness for C5: the empty list yields `none`; a two-point list yields
a curve. -/
theorem c5_getTrackCurve_arity_witness :
    getTrackCurve [] false = none ∧
    ∃ curve,
      getTrackCurve [{ id := mkId 1, position := ⟨0, 0, 0⟩, tilt := 0 },
        { id := mkId 2, position := ⟨5, 0, 0⟩, tilt := 0 }] false = some curve :=
  ⟨(c5_getTrackCurve_arity [] false).1 (by simp),
   (c5_getTrackCurve_arity _ false).2 (by simp)⟩

/-- C8: the rail projector offsets each sample by `±normalize((-tangent.z,
0, tangent.x)) * railOffset` at the sample's own height; for tangent
`(1,0,0)` (straight horizontal track along `+X`) the left and right rails
are offset by exactly `railOffset` along `+Z` and `-Z` at constant `y`. -/
theorem c8_rail_projector (p t : Vec3) :
    railNormal t = (Vec3.mk (-t.z) 0 t.x).normalize ∧
    leftRailPoint p t = p.add ((railNormal t).multiplyScalar railOffset) ∧
    rightRailPoint p t = p.sub ((railNormal t).multiplyScalar railOffset) ∧
    (leftRailPoint p t).y = p.y ∧ (rightRailPoint p t).y = p.y ∧
    leftRailPoint p ⟨1, 0, 0⟩ = ⟨p.x, p.y, p.z + railOffset⟩ ∧
    rightRailPoint p ⟨1, 0, 0⟩ = ⟨p.x, p.y, p.z - railOffset⟩ := by
  have hny : (railNormal t).y = 0 := by
    simp [railNormal, Vec3.normalize, Vec3.multiplyScalar]
  have hx : railNormal ⟨1, 0, 0⟩ = ⟨0, 0, 1⟩ := by
    simp [railNormal, Vec3.normalize, Vec3.multiplyScalar, Vec3.length]
  refine ⟨rfl, ?_, ?_, rfl, rfl, ?_, ?_⟩
  · simp [leftRailPoint, Vec3.add, Vec3.multiplyScalar, hny]
  · simp [rightRailPoint, Vec3.sub, Vec3.multiplyScalar, hny]
  · simp [leftRailPoint, hx]
  · simp [rightRailPoint, hx]

/-- Three collinear points `(0,0,0), (5,0,0), (10,0,0)` with ids
`point-1 .. point-3`: the spec's concrete scenario. -/
def exampleState3 : CoasterState :=
  { trackPoints :=
      [{ id := mkId 1, position := ⟨0, 0, 0⟩, tilt := 0 },
       { id := mkId 2, position := ⟨5, 0, 0⟩, tilt := 0 },
       { id := mkId 3, position := ⟨10, 0, 0⟩, tilt := 0 }],
    selectedPointId := none, pointCounter := 3, rideProgress := 0, isRiding := false }

theorem exampleState3_findIdx :
    exampleState3.trackPoints.findIdx? (fun p => p.id == mkId 2) = some 1 := by
  decide

theorem exampleState3_len : exampleState3.trackPoints.length = 3 := rfl

/-- C2 (amended): for an anchor found at index `i`, the
transition-synthesis variant yields
`original - (legacy points actually removed) + approachCount +
loopBodyCount + exitCount` points — the re-inserted anchor contributes no
net change, so the claim's extra `+ 1` is dropped — and the blend variant
yields `original + 20`; both results are at least the original length. -/
theorem c2_length_after_loop (cfg : LoopConfig) (s : CoasterState) (aid : String) (i : Nat)
    (hfind : s.trackPoints.findIdx? (fun p => p.id == aid) = some i) :
    ((createLoopAtPoint cfg aid s).trackPoints.length =
      s.trackPoints.length
        - min (skipCountOf s.trackPoints i) (s.trackPoints.length - (i + 1))
        + ((if 0 < i then 2 else 0) + cfg.loopPointsCount
            + (if i + 1 < s.trackPoints.length then 4 else 2))) ∧
    s.trackPoints.length ≤ (createLoopAtPoint cfg aid s).trackPoints.length ∧
    (createLoopAtPointBlend aid s).trackPoints.length = s.trackPoints.length + 20 ∧
    s.trackPoints.length ≤ (createLoopAtPointBlend aid s).trackPoints.length := by
  have hi : i < s.trackPoints.length := (List.findIdx?_eq_some_iff_findIdx_eq.mp hfind).1
  rw [createLoopAtPoint_found cfg hfind hi, createLoopAtPointBlend_found hfind hi]
  simp only [createLoopCore, createLoopBlendCore, List.length_append, List.length_take,
    List.length_drop, List.length_cons, List.length_nil, approachPointsOf_length cfg hi,
    loopBodyPoints_length, transitionPointsOf_length, blendLoopPoints_length, skipCountOf_eq]
  refine ⟨?_, ?_, ?_, ?_⟩ <;> first
    | omega
    | (split_ifs <;> omega)

/-- Witness for C2 at the concrete three-point scenario. -/
theorem c2_length_after_loop_witness :
    (createLoopAtPoint ⟨4, 1.75, 3, 6, 20⟩ (mkId 2) exampleState3).trackPoints.length =
      3 - min (skipCountOf exampleState3.trackPoints 1) (3 - 2) + (2 + 20 + 4) ∧
    (createLoopAtPointBlend (mkId 2) exampleState3).trackPoints.length = 3 + 20 := by
  have h := c2_length_after_loop ⟨4, 1.75, 3, 6, 20⟩ exampleState3 (mkId 2) 1
    exampleState3_findIdx
  refine ⟨?_, ?_⟩
  · have := h.1
    simpa [exampleState3_len] using this
  · simpa [exampleState3_len] using h.2.2.1

/-- C2 counterexample: at the concrete three-point scenario with the loop
at the middle point, the transition-synthesis variant yields 28 points and
the blend variant 23, while the claim's formula `original - skipped +
(approach + 1 + loopBody + exit)` gives 29 and 24 respectively. -/
theorem c2_length_claim_counterexample :
    (createLoopAtPoint ⟨4, 1.75, 3, 6, 20⟩ (mkId 2) exampleState3).trackPoints.length = 28 ∧
    28 ≠ 3 - 1 + (2 + 1 + 20 + 4) ∧
    (createLoopAtPointBlend (mkId 2) exampleState3).trackPoints.length = 23 ∧
    23 ≠ 3 - 0 + (0 + 1 + 20 + 0) := by
  have hi : (1 : Nat) < exampleState3.trackPoints.length := by rw [exampleState3_len]; omega
  refine ⟨?_, by omega, ?_, by omega⟩
  · rw [createLoopAtPoint_found ⟨4, 1.75, 3, 6, 20⟩ exampleState3_findIdx hi]
    simp [createLoopCore, approachPointsOf_length _ hi, loopBodyPoints_length,
      transitionPointsOf_length, skipCountOf_eq, exampleState3_len]
  · rw [createLoopAtPointBlend_found exampleState3_findIdx hi]
    simp [createLoopBlendCore, blendLoopPoints_length, exampleState3_len]

theorem getElem?_append_first (l₁ l₂ : List α) (n : Nat) (x : α)
    (h : n < l₁.length) (hx : l₁[n]? = some x) : (l₁ ++ l₂)[n]? = some x := by
  rw [List.getElem?_append, if_pos h, hx]

theorem splice_getElem (T AP R : List α) (x : α) (n : Nat)
    (h : T.length + AP.length = n) : (T ++ (AP ++ ([x] ++ R)))[n]? = some x := by
  subst h
  rw [List.getElem?_append_right (Nat.le_add_right _ _), Nat.add_sub_cancel_left,
    List.getElem?_append_right (Nat.le_refl _), Nat.sub_self]
  simp

/-- C3: the splice leaves every point strictly before the anchor index and
every point past the skip window untouched, and retains the anchor itself
between the approach points and the loop body (at index `i + approachCount`
for the transition-synthesis variant, at its own index `i` — with no
approach points — for the blend variant). -/
theorem c3_splice_frame (cfg : LoopConfig) (s : CoasterState) (aid : String) (i : Nat)
    (hfind : s.trackPoints.findIdx? (fun p => p.id == aid) = some i)
    (hi : i < s.trackPoints.length) :
    ((createLoopAtPoint cfg aid s).trackPoints.take i = s.trackPoints.take i) ∧
    ((createLoopAtPoint cfg aid s).trackPoints.drop
        (i + (if 0 < i then 2 else 0) + 1 + cfg.loopPointsCount
          + (if i + 1 < s.trackPoints.length then 4 else 2)) =
      s.trackPoints.drop (i + 1 + skipCountOf s.trackPoints i)) ∧
    ((createLoopAtPoint cfg aid s).trackPoints[i + (if 0 < i then 2 else 0)]? =
      some (s.trackPoints.get ⟨i, hi⟩)) ∧
    ((createLoopAtPointBlend aid s).trackPoints.take (i + 1) = s.trackPoints.take (i + 1)) ∧
    ((createLoopAtPointBlend aid s).trackPoints.drop (i + 1 + 20) =
      s.trackPoints.drop (i + 1)) ∧
    ((createLoopAtPointBlend aid s).trackPoints[i]? = some (s.trackPoints.get ⟨i, hi⟩)) := by
  rw [createLoopAtPoint_found cfg hfind hi, createLoopAtPointBlend_found hfind hi]
  simp only [createLoopCore, createLoopBlendCore]
  have hlen_take : (s.trackPoints.take i).length = i := by
    simp [List.length_take, Nat.min_eq_left (Nat.le_of_lt hi)]
  have hlen_take1 : (s.trackPoints.take (i + 1)).length = i + 1 := by
    simp [List.length_take, Nat.min_eq_left (Nat.succ_le_of_lt hi)]
  have hap : (approachPointsOf cfg s.trackPoints i s.pointCounter
      (s.trackPoints.get ⟨i, hi⟩).position
      (loopForward s.trackPoints i (s.trackPoints.get ⟨i, hi⟩).position)).length =
      if 0 < i then 2 else 0 := approachPointsOf_length cfg hi _ _ _
  refine ⟨?_, ?_, ?_, ?_, ?_, ?_⟩
  · simp only [List.append_assoc]
    exact List.take_left' hlen_take
  · refine List.drop_left' ?_
    simp only [List.length_append, hlen_take, hap, loopBodyPoints_length,
      transitionPointsOf_length, List.length_cons, List.length_nil]
  · simp only [List.append_assoc]
    refine splice_getElem _ _ _ _ _ ?_
    rw [hlen_take, hap]
  · simp only [List.append_assoc]
    exact List.take_left' hlen_take1
  · refine List.drop_left' ?_
    simp only [List.length_append, hlen_take1, blendLoopPoints_length]
  · refine getElem?_append_first _ _ _ _ ?_ ?_
    · simp only [List.length_append, hlen_take1, blendLoopPoints_length]
      omega
    · refine getElem?_append_first _ _ _ _ ?_ ?_
      · rw [hlen_take1]
        omega
      · rw [List.getElem?_take_of_lt (Nat.lt_succ_self i), List.getElem?_eq_getElem hi]
        rfl

theorem splice_getElem_loop (T AP R LP : List α) (x : α) (k : Nat) (hk : k < LP.length) :
    (T ++ (AP ++ ([x] ++ (LP ++ R))))[T.length + AP.length + 1 + k]? = LP[k]? := by
  rw [List.getElem?_append_right
      (show T.length ≤ T.length + AP.length + 1 + k by omega),
    show T.length + AP.length + 1 + k - T.length = AP.length + (1 + k) by omega,
    List.getElem?_append_right (show AP.length ≤ AP.length + (1 + k) by omega),
    show AP.length + (1 + k) - AP.length = 1 + k by omega,
    List.getElem?_append_right (show ([x] : List α).length ≤ 1 + k by simp),
    show 1 + k - ([x] : List α).length = k by simp,
    List.getElem?_append, if_pos hk]

theorem append_getElem_mid (T LP D : List α) (k : Nat) (hk : k < LP.length) :
    ((T ++ LP) ++ D)[T.length + k]? = LP[k]? := by
  rw [List.append_assoc,
    List.getElem?_append_right (show T.length ≤ T.length + k by omega),
    show T.length + k - T.length = k by omega,
    List.getElem?_append, if_pos hk]

theorem loopBodyPoints_getElem (cfg : LoopConfig) (c : Nat) (e f r : Vec3) {k : Nat}
    (hk : k < cfg.loopPointsCount) :
    (loopBodyPoints cfg c e f r)[k]? = some (loopBodyPoint cfg c e f r (k + 1)) := by
  simp [loopBodyPoints, List.getElem?_range hk]

theorem blendLoopPoints_getElem (c : Nat) (e f r : Vec3) (nl : Option TrackPoint) {k : Nat}
    (hk : k < 20) :
    (blendLoopPoints c e f r nl)[k]? = some (blendLoopPoint c e f r nl (k + 1)) := by
  simp [blendLoopPoints, List.getElem?_range hk]

theorem loopBodyPoint_y (cfg : LoopConfig) (c : Nat) (e f r : Vec3) (i : Nat) :
    (loopBodyPoint cfg c e f r i).position.y =
      e.y + (1 - Real.cos ((i : ℝ) / (cfg.loopPointsCount : ℝ) * Real.pi * 2)) *
        cfg.loopRadius := rfl

theorem blendLoopPoint_y (c : Nat) (e f r : Vec3) (nl : Option TrackPoint) (i : Nat) :
    (blendLoopPoint c e f r nl i).position.y =
      e.y + (1 - Real.cos ((i : ℝ) / 20 * Real.pi * 2)) * 4 := by
  rcases nl with _ | np
  · rfl
  · simp only [blendLoopPoint]
    split_ifs <;> rfl

theorem cos_pi_div_ten_bounds :
    0.95 < Real.cos (Real.pi / 10) ∧ Real.cos (Real.pi / 10) < 0.9525 := by
  have h5a : Real.sqrt 5 < 2.2361 := (Real.sqrt_lt' (by norm_num)).mpr (by norm_num)
  have h5b : (2.2360 : ℝ) < Real.sqrt 5 := (Real.lt_sqrt (by norm_num)).mpr (by norm_num)
  have hhalf : Real.cos (Real.pi / 10) =
      Real.sqrt ((1 + Real.cos (Real.pi / 5)) / 2) := by
    rw [show Real.pi / 10 = Real.pi / 5 / 2 by ring]
    exact Real.cos_half (by linarith [Real.pi_pos]) (by linarith [Real.pi_pos])
  rw [hhalf, Real.cos_pi_div_five]
  constructor
  · rw [Real.lt_sqrt (by norm_num)]
    nlinarith [h5b]
  · rw [Real.sqrt_lt' (by norm_num)]
    nlinarith [h5a]

/-- C1: every loop-body point `k` (0-based; `theta = 2π(k+1)/20`) of either
variant has height `anchor.y + (1 - cos theta) * 4` (under the reference
config for the transition-synthesis variant), the last body point
(`theta = 2π`) lies exactly at the anchor's height, and the first step
height `(1 - cos(π/10)) * 4` lies strictly between 0.19 and 0.2
(≈ 0.195). -/
theorem c1_loop_body_heights (cfg : LoopConfig) (s : CoasterState) (aid : String) (i : Nat)
    (hfind : s.trackPoints.findIdx? (fun p => p.id == aid) = some i)
    (hi : i < s.trackPoints.length)
    (hR : cfg.loopRadius = 4) (hN : cfg.loopPointsCount = 20) :
    (∀ k, k < 20 →
      ((createLoopAtPoint cfg aid s).trackPoints[i + (if 0 < i then 2 else 0) + 1 + k]?.map
          fun p => p.position.y) =
        some ((s.trackPoints.get ⟨i, hi⟩).position.y +
          (1 - Real.cos (2 * Real.pi * (k + 1) / 20)) * 4) ∧
      ((createLoopAtPointBlend aid s).trackPoints[i + 1 + k]?.map fun p => p.position.y) =
        some ((s.trackPoints.get ⟨i, hi⟩).position.y +
          (1 - Real.cos (2 * Real.pi * (k + 1) / 20)) * 4)) ∧
    ((createLoopAtPoint cfg aid s).trackPoints[i + (if 0 < i then 2 else 0) + 1 + 19]?.map
        fun p => p.position.y) = some (s.trackPoints.get ⟨i, hi⟩).position.y ∧
    ((createLoopAtPointBlend aid s).trackPoints[i + 1 + 19]?.map fun p => p.position.y) =
      some (s.trackPoints.get ⟨i, hi⟩).position.y ∧
    0.19 < (1 - Real.cos (2 * Real.pi * (0 + 1) / 20)) * 4 ∧
    (1 - Real.cos (2 * Real.pi * (0 + 1) / 20)) * 4 < 0.2 := by
  have hlen_take : (s.trackPoints.take i).length = i := by
    simp [List.length_take, Nat.min_eq_left (Nat.le_of_lt hi)]
  have hlen_take1 : (s.trackPoints.take (i + 1)).length = i + 1 := by
    simp [List.length_take, Nat.min_eq_left (Nat.succ_le_of_lt hi)]
  have hap : (approachPointsOf cfg s.trackPoints i s.pointCounter
      (s.trackPoints.get ⟨i, hi⟩).position
      (loopForward s.trackPoints i (s.trackPoints.get ⟨i, hi⟩).position)).length =
      if 0 < i then 2 else 0 := approachPointsOf_length cfg hi _ _ _
  have main : ∀ k, k < 20 →
      ((createLoopAtPoint cfg aid s).trackPoints[i + (if 0 < i then 2 else 0) + 1 + k]?.map
          fun p => p.position.y) =
        some ((s.trackPoints.get ⟨i, hi⟩).position.y +
          (1 - Real.cos (2 * Real.pi * (k + 1) / 20)) * 4) ∧
      ((createLoopAtPointBlend aid s).trackPoints[i + 1 + k]?.map fun p => p.position.y) =
        some ((s.trackPoints.get ⟨i, hi⟩).position.y +
          (1 - Real.cos (2 * Real.pi * (k + 1) / 20)) * 4) := by
    intro k hk
    have harg : ((k : ℝ) + 1) / (20 : ℝ) * Real.pi * 2 =
        2 * Real.pi * ((k : ℝ) + 1) / 20 := by ring
    constructor
    · rw [createLoopAtPoint_found cfg hfind hi]
      simp only [createLoopCore, List.append_assoc]
      rw [show i + (if 0 < i then 2 else 0) + 1 + k =
        (s.trackPoints.take i).length +
          (approachPointsOf cfg s.trackPoints i s.pointCounter
            (s.trackPoints.get ⟨i, hi⟩).position
            (loopForward s.trackPoints i (s.trackPoints.get ⟨i, hi⟩).position)).length +
          1 + k from by rw [hlen_take, hap]]
      rw [splice_getElem_loop]
      · rw [loopBodyPoints_getElem]
        · rw [Option.map_some', loopBodyPoint_y, hR, hN]
          push_cast
          rw [harg]
        · rw [hN]
          exact hk
      · rw [loopBodyPoints_length, hN]
        exact hk
    · rw [createLoopAtPointBlend_found hfind hi]
      simp only [createLoopBlendCore]
      rw [show i + 1 + k = (s.trackPoints.take (i + 1)).length + k from by rw [hlen_take1]]
      rw [append_getElem_mid]
      · rw [blendLoopPoints_getElem]
        · rw [Option.map_some', blendLoopPoint_y]
          push_cast
          rw [harg]
        · exact hk
      · rw [blendLoopPoints_length]
        exact hk
  have hlast : (2 * Real.pi * (((19 : ℕ) : ℝ) + 1) / 20) = 2 * Real.pi := by
    norm_num
  have hlast_y : (s.trackPoints.get ⟨i, hi⟩).position.y +
      (1 - Real.cos (2 * Real.pi * (((19 : ℕ) : ℝ) + 1) / 20)) * 4 =
      (s.trackPoints.get ⟨i, hi⟩).position.y := by
    rw [hlast, Real.cos_two_pi]
    ring
  have hstep : (2 * Real.pi * ((0 : ℝ) + 1) / 20) = Real.pi / 10 := by ring
  obtain ⟨hcl, hcu⟩ := cos_pi_div_ten_bounds
  refine ⟨main, ?_, ?_, ?_, ?_⟩
  · rw [(main 19 (by omega)).1]
    rw [hlast_y]
  · rw [(main 19 (by omega)).2]
    rw [hlast_y]
  · rw [show (2 * Real.pi * (0 + 1) / 20 : ℝ) = Real.pi / 10 from hstep.symm ▸ by ring]
    linarith
  · rw [show (2 * Real.pi * (0 + 1) / 20 : ℝ) = Real.pi / 10 by ring]
    linarith

/-- Witness for C1 at the concrete three-point scenario (blend variant,
first loop-body point). -/
theorem c1_loop_body_heights_witness :
    ((createLoopAtPointBlend (mkId 2) exampleState3).trackPoints[1 + 1 + 0]?.map
        fun p => p.position.y) =
      some ((exampleState3.trackPoints.get
          ⟨1, by rw [exampleState3_len]; omega⟩).position.y +
        (1 - Real.cos (2 * Real.pi * (0 + 1) / 20)) * 4) ∧
    0.19 < (1 - Real.cos (2 * Real.pi * (0 + 1) / 20)) * 4 ∧
    (1 - Real.cos (2 * Real.pi * (0 + 1) / 20)) * 4 < 0.2 := by
  have hi1 : (1 : Nat) < exampleState3.trackPoints.length := by
    rw [exampleState3_len]; omega
  have h := c1_loop_body_heights ⟨4, 1.75, 3, 6, 20⟩ exampleState3 (mkId 2) 1
    exampleState3_findIdx hi1 rfl rfl
  refine ⟨?_, h.2.2.2.1, h.2.2.2.2⟩
  simpa using (h.1 0 (by omega)).2

/-- Witness for C3 at the concrete three-point scenario. -/
theorem c3_splice_frame_witness :
    (createLoopAtPoint ⟨4, 1.75, 3, 6, 20⟩ (mkId 2)
        exampleState3).trackPoints[1 + (if 0 < 1 then 2 else 0)]? =
      some (exampleState3.trackPoints.get ⟨1, by rw [exampleState3_len]; omega⟩) ∧
    (createLoopAtPointBlend (mkId 2) exampleState3).trackPoints.take (1 + 1) =
      exampleState3.trackPoints.take (1 + 1) := by
  have hi1 : (1 : Nat) < exampleState3.trackPoints.length := by
    rw [exampleState3_len]; omega
  have h := c3_splice_frame ⟨4, 1.75, 3, 6, 20⟩ exampleState3 (mkId 2) 1
    exampleState3_findIdx hi1
  exact ⟨h.2.2.1, h.2.2.2.1⟩

/-- C4: `createLoopAtPoint` (either variant) with an id absent from the
sequence returns the state unchanged. -/
theorem c4_createLoop_unknown_id (cfg : LoopConfig) (s : CoasterState) (aid : String)
    (h : ∀ p ∈ s.trackPoints, p.id ≠ aid) :
    createLoopAtPoint cfg aid s = s ∧ createLoopAtPointBlend aid s = s := by
  have hfind := findIdx?_none_of_unknown h
  constructor
  · simp [createLoopAtPoint, hfind]
  · simp [createLoopAtPointBlend, hfind]

/-- Witness for C4 at a concrete one-point state and the absent id `point-5`. -/
theorem c4_createLoop_unknown_id_witness :
    createLoopAtPoint ⟨4, 1.75, 3, 6, 20⟩ (mkId 5)
      { trackPoints := [{ id := mkId 1, position := ⟨0, 0, 0⟩, tilt := 0 }],
        selectedPointId := none, pointCounter := 1,
        rideProgress := 0, isRiding := false } =
      { trackPoints := [{ id := mkId 1, position := ⟨0, 0, 0⟩, tilt := 0 }],
        selectedPointId := none, pointCounter := 1,
        rideProgress := 0, isRiding := false } :=
  (c4_createLoop_unknown_id ⟨4, 1.75, 3, 6, 20⟩ _ (mkId 5)
    (by intro p hp; simp only [List.mem_singleton] at hp; subst hp; decide)).1

/-! Reachability model for C9: the mutation operations named by the spec,
as commands over `CoasterState`. -/

/-- One mutation command (the spec's mutation API; `createLoop` covers both
source variants of `createLoopAtPoint`). -/
inductive Cmd where
  | add (position : Vec3)
  | update (id : String) (position : Vec3)
  | updateTilt (id : String) (tilt : ℝ)
  | remove (id : String)
  | createLoop (cfg : LoopConfig) (id : String)
  | createLoopBlend (id : String)
  | clear

/-- Apply one command. -/
def step : Cmd → CoasterState → CoasterState
  | .add p => addTrackPoint p
  | .update pid p => updateTrackPoint pid p
  | .updateTilt pid t => updateTrackPointTilt pid t
  | .remove pid => removeTrackPoint pid
  | .createLoop cfg pid => createLoopAtPoint cfg pid
  | .createLoopBlend pid => createLoopAtPointBlend pid
  | .clear => clearTrack

/-- Run a command list left to right. -/
def run : List Cmd → CoasterState → CoasterState
  | [], s => s
  | c :: cs, s => run cs (step c s)

theorem run_append (l₁ l₂ : List Cmd) (s : CoasterState) :
    run (l₁ ++ l₂) s = run l₂ (run l₁ s) := by
  induction l₁ generalizing s with
  | nil => rfl
  | cons c cs ih => simp [run, ih]

/-- Invariant: all ids are pairwise distinct and every id is the tag of a
counter value at most the current counter. -/
def IdsOk (s : CoasterState) : Prop :=
  (s.trackPoints.map TrackPoint.id).Nodup ∧
  ∀ p ∈ s.trackPoints, ∃ k, k ≤ s.pointCounter ∧ p.id = mkId k

theorem mkId_eq_iff {m n : Nat} : mkId m = mkId n ↔ m = n :=
  ⟨fun h => mkId_injective h, fun h => h ▸ rfl⟩

/-- A block of ids drawn from the counter range `(lo, hi]`, no duplicates. -/
def FreshRange (L : List String) (lo hi : Nat) : Prop :=
  L.Nodup ∧ ∀ x ∈ L, ∃ k, lo < k ∧ k ≤ hi ∧ x = mkId k

theorem FreshRange.append {L₁ L₂ : List String} {lo mid hi : Nat}
    (h₁ : FreshRange L₁ lo mid) (h₂ : FreshRange L₂ mid hi) (hm : lo ≤ mid)
    (hh : mid ≤ hi) : FreshRange (L₁ ++ L₂) lo hi := by
  obtain ⟨n₁, b₁⟩ := h₁
  obtain ⟨n₂, b₂⟩ := h₂
  constructor
  · rw [List.nodup_append]
    refine ⟨n₁, n₂, fun x hx₁ hx₂ => ?_⟩
    obtain ⟨k, hk₁, hk₂, rfl⟩ := b₁ x hx₁
    obtain ⟨k', hk₁', _, he⟩ := b₂ _ hx₂
    rw [mkId_eq_iff] at he
    omega
  · intro x hx
    rcases List.mem_append.mp hx with h | h
    · obtain ⟨k, hk₁, hk₂, h₃⟩ := b₁ x h
      exact ⟨k, by omega, by omega, h₃⟩
    · obtain ⟨k, hk₁, hk₂, h₃⟩ := b₂ x h
      exact ⟨k, by omega, by omega, h₃⟩

theorem approachPointsOf_fresh (cfg : LoopConfig) (pts : List TrackPoint) (i c : Nat)
    (entryPos forward : Vec3) :
    FreshRange ((approachPointsOf cfg pts i c entryPos forward).map TrackPoint.id) c
      (c + (approachPointsOf cfg pts i c entryPos forward).length) := by
  unfold approachPointsOf
  split
  · rcases pts[i - 1]? with _ | prevPoint
    · exact ⟨List.nodup_nil, by simp⟩
    · refine ⟨?_, ?_⟩
      · simp [List.nodup_cons, mkId_eq_iff]
      · intro x hx
        simp only [List.map_cons, List.map_nil, List.mem_cons, List.not_mem_nil,
          or_false, List.length_cons, List.length_nil] at hx ⊢
        rcases hx with rfl | rfl
        · exact ⟨c + 1, by omega, by omega, rfl⟩
        · exact ⟨c + 2, by omega, by omega, rfl⟩
  · exact ⟨List.nodup_nil, by simp⟩

theorem loopBodyPoints_fresh (cfg : LoopConfig) (c : Nat) (entryPos forward right : Vec3) :
    FreshRange ((loopBodyPoints cfg c entryPos forward right).map TrackPoint.id) c
      (c + (loopBodyPoints cfg c entryPos forward right).length) := by
  rw [loopBodyPoints_length]
  constructor
  · rw [loopBodyPoints, List.map_map]
    refine List.Nodup.map ?_ (List.nodup_range cfg.loopPointsCount)
    intro a b hab
    have : mkId (c + (a + 1)) = mkId (c + (b + 1)) := hab
    rw [mkId_eq_iff] at this
    omega
  · intro x hx
    rw [loopBodyPoints, List.map_map] at hx
    obtain ⟨j, hj, rfl⟩ := List.mem_map.mp hx
    rw [List.mem_range] at hj
    exact ⟨c + (j + 1), by omega, by omega, rfl⟩

theorem transitionPointsOf_fresh (cfg : LoopConfig) (pts : List TrackPoint) (i c : Nat)
    (forward right loopExit : Vec3) :
    FreshRange ((transitionPointsOf cfg pts i c forward right loopExit).map TrackPoint.id) c
      (c + (transitionPointsOf cfg pts i c forward right loopExit).length) := by
  have base2 : ∀ tp pat, FreshRange
      ((transitionStage2 c ((loopExit.add (forward.multiplyScalar cfg.forwardSeparation)).add
          (right.multiplyScalar cfg.exitSeparation)) forward tp pat).map TrackPoint.id)
      (c + 2) (c + 4) := by
    intro tp pat
    refine ⟨by simp [transitionStage2, List.nodup_cons, mkId_eq_iff], ?_⟩
    intro x hx
    simp only [transitionStage2, List.map_cons, List.map_nil, List.mem_cons,
      List.not_mem_nil, or_false] at hx
    rcases hx with rfl | rfl
    · exact ⟨c + 3, by omega, by omega, rfl⟩
    · exact ⟨c + 4, by omega, by omega, rfl⟩
  unfold transitionPointsOf
  have basePair : FreshRange
      ([mkId (c + 1), mkId (c + 2)]) c (c + 2) := by
    refine ⟨by simp [List.nodup_cons, mkId_eq_iff], ?_⟩
    intro x hx
    rcases List.mem_cons.mp hx with rfl | hx
    · exact ⟨c + 1, by omega, by omega, rfl⟩
    · rcases List.mem_cons.mp hx with rfl | hx
      · exact ⟨c + 2, by omega, by omega, rfl⟩
      · cases hx
  rcases pts[i + 3]? with _ | tp3
  · rcases pts[i + 2]? with _ | tp2
    · rcases pts[i + 1]? with _ | tp1
      · simpa using basePair
      · have h := FreshRange.append basePair (base2 tp1 pts[i + 2]?) (by omega) (by omega)
        simpa [transitionStage2] using h
    · have h := FreshRange.append basePair (base2 tp2 pts[i + 3]?) (by omega) (by omega)
      simpa [transitionStage2] using h
  · have h := FreshRange.append basePair (base2 tp3 pts[i + 4]?) (by omega) (by omega)
    simpa [transitionStage2] using h

theorem updateTrackPoint_ids (pid : String) (pos : Vec3) (s : CoasterState) :
    (updateTrackPoint pid pos s).trackPoints.map TrackPoint.id =
      s.trackPoints.map TrackPoint.id := by
  show (s.trackPoints.map _).map TrackPoint.id = _
  rw [List.map_map]
  refine List.map_congr_left fun p _ => ?_
  by_cases hc : p.id = pid <;> simp [Function.comp, hc]

theorem updateTrackPointTilt_ids (pid : String) (t : ℝ) (s : CoasterState) :
    (updateTrackPointTilt pid t s).trackPoints.map TrackPoint.id =
      s.trackPoints.map TrackPoint.id := by
  show (s.trackPoints.map _).map TrackPoint.id = _
  rw [List.map_map]
  refine List.map_congr_left fun p _ => ?_
  by_cases hc : p.id = pid <;> simp [Function.comp, hc]

theorem addTrackPoint_preserves {s : CoasterState} (pos : Vec3) (h : IdsOk s) :
    IdsOk (addTrackPoint pos s) := by
  obtain ⟨hnd, hbd⟩ := h
  constructor
  · show ((s.trackPoints ++ [_]).map TrackPoint.id).Nodup
    rw [List.map_append]
    rw [List.nodup_append]
    refine ⟨hnd, by simp, fun x hx hx' => ?_⟩
    simp only [List.map_cons, List.map_nil, List.mem_cons, List.not_mem_nil,
      or_false] at hx'
    subst hx'
    obtain ⟨p, hp, hpid⟩ := List.mem_map.mp hx
    obtain ⟨k, hk, hke⟩ := hbd p hp
    have := mkId_injective (hke.symm.trans hpid)
    omega
  · intro p hp
    rcases List.mem_append.mp hp with hp | hp
    · obtain ⟨k, hk, hke⟩ := hbd p hp
      exact ⟨k, by simp [addTrackPoint]; omega, hke⟩
    · simp only [List.mem_cons, List.not_mem_nil, or_false] at hp
      subst hp
      exact ⟨s.pointCounter + 1, le_refl _, rfl⟩

theorem removeTrackPoint_preserves {s : CoasterState} (pid : String) (h : IdsOk s) :
    IdsOk (removeTrackPoint pid s) := by
  obtain ⟨hnd, hbd⟩ := h
  constructor
  · exact List.Nodup.sublist (List.Sublist.map _ (List.filter_sublist _)) hnd
  · intro p hp
    exact hbd p (List.mem_of_mem_filter hp)

theorem clearTrack_preserves {s : CoasterState} (_h : IdsOk s) : IdsOk (clearTrack s) :=
  ⟨List.nodup_nil, by intro p hp; cases hp⟩

/-- The legacy points the splice keeps form a sublist of the original. -/
theorem old_retained_sublist {pts : List TrackPoint} {i : Nat} (skip : Nat)
    (hi : i < pts.length) :
    List.Sublist (pts.take i ++ pts.get ⟨i, hi⟩ :: pts.drop (i + 1 + skip)) pts := by
  conv_rhs => rw [← List.take_append_drop i pts]
  refine List.Sublist.append_left ?_ _
  rw [List.drop_eq_getElem_cons hi]
  refine List.Sublist.cons₂ _ ?_
  exact List.drop_sublist_drop_left _ (by omega)

theorem blendLoopPoints_fresh (c : Nat) (entryPos forward right : Vec3)
    (nextLegacy : Option TrackPoint) :
    FreshRange ((blendLoopPoints c entryPos forward right nextLegacy).map TrackPoint.id) c
      (c + 20) := by
  constructor
  · rw [blendLoopPoints, List.map_map]
    refine List.Nodup.map ?_ (List.nodup_range 20)
    intro a b hab
    have : mkId (c + (a + 1)) = mkId (c + (b + 1)) := hab
    rw [mkId_eq_iff] at this
    omega
  · intro x hx
    rw [blendLoopPoints, List.map_map] at hx
    obtain ⟨j, hj, rfl⟩ := List.mem_map.mp hx
    rw [List.mem_range] at hj
    exact ⟨c + (j + 1), by omega, by omega, rfl⟩

theorem nodup_append_blocks {A AP B T D : List String} {e : String}
    (hold : (A ++ (e :: D)).Nodup) (hnew : (AP ++ (B ++ T)).Nodup)
    (hdisj : List.Disjoint (A ++ (e :: D)) (AP ++ (B ++ T))) :
    (A ++ (AP ++ (e :: (B ++ (T ++ D))))).Nodup := by
  rw [← List.singleton_append] at hold hdisj ⊢
  have hperm : (A ++ (AP ++ ([e] ++ (B ++ (T ++ D))))).Perm
      ((A ++ ([e] ++ D)) ++ (AP ++ (B ++ T))) := by
    rw [List.append_assoc]
    refine List.Perm.append_left A ?_
    rw [List.append_assoc]
    have p1 : (AP ++ ([e] ++ (B ++ (T ++ D)))).Perm
        ([e] ++ (AP ++ (B ++ (T ++ D)))) := List.perm_append_comm_assoc AP [e] _
    have p2 : (AP ++ (B ++ (T ++ D))).Perm (AP ++ (B ++ (D ++ T))) :=
      List.Perm.append_left AP (List.Perm.append_left B List.perm_append_comm)
    have p3 : (AP ++ (B ++ (D ++ T))).Perm (AP ++ (D ++ (B ++ T))) :=
      List.Perm.append_left AP (List.perm_append_comm_assoc B D T)
    have p4 : (AP ++ (D ++ (B ++ T))).Perm (D ++ (AP ++ (B ++ T))) :=
      List.perm_append_comm_assoc AP D _
    exact p1.trans (List.Perm.append_left [e] ((p2.trans p3).trans p4))
  rw [hperm.nodup_iff, List.nodup_append]
  exact ⟨hold, hnew, hdisj⟩

theorem nodup_insert_block {A B D : List String}
    (hold : (A ++ D).Nodup) (hnew : B.Nodup) (hdisj : List.Disjoint (A ++ D) B) :
    (A ++ (B ++ D)).Nodup := by
  have hperm : (A ++ (B ++ D)).Perm ((A ++ D) ++ B) := by
    rw [List.append_assoc]
    exact List.Perm.append_left A (List.perm_append_comm)
  rw [hperm.nodup_iff, List.nodup_append]
  exact ⟨hold, hnew, hdisj⟩

/-- Splicing fresh blocks `AP`, `LP`, `TR` around the retained anchor keeps
ids pairwise distinct and bounded. -/
theorem splice_preserves_general {pts : List TrackPoint} {i : Nat} (hi : i < pts.length)
    (skip : Nat) {AP LP TR : List TrackPoint} {c0 c1 c2 c3 : Nat}
    (hnd : (pts.map TrackPoint.id).Nodup)
    (hbd : ∀ p ∈ pts, ∃ k, k ≤ c0 ∧ p.id = mkId k)
    (hAP : FreshRange (AP.map TrackPoint.id) c0 c1)
    (hLP : FreshRange (LP.map TrackPoint.id) c1 c2)
    (hTR : FreshRange (TR.map TrackPoint.id) c2 c3)
    (h01 : c0 ≤ c1) (h12 : c1 ≤ c2) (h23 : c2 ≤ c3) :
    (((pts.take i ++ AP ++ [pts.get ⟨i, hi⟩] ++ LP ++ TR ++
        pts.drop (i + 1 + skip)).map TrackPoint.id).Nodup) ∧
    (∀ p ∈ pts.take i ++ AP ++ [pts.get ⟨i, hi⟩] ++ LP ++ TR ++
        pts.drop (i + 1 + skip), ∃ k, k ≤ c3 ∧ p.id = mkId k) := by
  have hnew : FreshRange ((AP.map TrackPoint.id) ++
      ((LP.map TrackPoint.id) ++ (TR.map TrackPoint.id))) c0 c3 :=
    hAP.append (hLP.append hTR h12 h23) h01 (le_trans h12 h23)
  have hold_nd : ((pts.take i ++ pts.get ⟨i, hi⟩ :: pts.drop (i + 1 + skip)).map
      TrackPoint.id).Nodup :=
    List.Nodup.sublist (List.Sublist.map _ (old_retained_sublist skip hi)) hnd
  have hold_bd : ∀ x ∈ (pts.take i ++ pts.get ⟨i, hi⟩ :: pts.drop (i + 1 + skip)).map
      TrackPoint.id, ∃ k, k ≤ c0 ∧ x = mkId k := by
    intro x hx
    obtain ⟨p, hp, rfl⟩ := List.mem_map.mp hx
    exact hbd p (List.Sublist.mem hp (old_retained_sublist skip hi))
  constructor
  · simp only [List.append_assoc, List.map_append, List.map_cons, List.map_nil,
      List.singleton_append]
    refine nodup_append_blocks ?_ ?_ ?_
    · simpa using hold_nd
    · exact hnew.1
    · intro x hx hx'
      have hx0 : x ∈ (pts.take i ++ pts.get ⟨i, hi⟩ :: pts.drop (i + 1 + skip)).map
          TrackPoint.id := by
        simpa using hx
      obtain ⟨k, hk, rfl⟩ := hold_bd x hx0
      obtain ⟨k', hk', _, he⟩ := hnew.2 _ hx'
      rw [mkId_eq_iff] at he
      omega
  · intro p hp
    simp only [List.append_assoc, List.mem_append, List.mem_cons, List.mem_singleton,
      List.not_mem_nil, or_false] at hp
    rcases hp with hp | hp | hp | hp | hp | hp
    · obtain ⟨k, hk, he⟩ := hbd p (List.Sublist.mem hp (List.take_sublist i pts))
      exact ⟨k, by omega, he⟩
    · obtain ⟨k, hk1, hk2, he⟩ := hAP.2 p.id (List.mem_map_of_mem TrackPoint.id hp)
      exact ⟨k, by omega, he⟩
    · obtain ⟨k, hk, he⟩ := hbd p (by rw [hp]; exact List.get_mem pts i hi)
      exact ⟨k, by omega, he⟩
    · obtain ⟨k, hk1, hk2, he⟩ := hLP.2 p.id (List.mem_map_of_mem TrackPoint.id hp)
      exact ⟨k, by omega, he⟩
    · obtain ⟨k, hk1, hk2, he⟩ := hTR.2 p.id (List.mem_map_of_mem TrackPoint.id hp)
      exact ⟨k, by omega, he⟩
    · obtain ⟨k, hk, he⟩ := hbd p (List.Sublist.mem hp (List.drop_sublist _ pts))
      exact ⟨k, by omega, he⟩

theorem createLoopCore_preserves (cfg : LoopConfig) {s : CoasterState} {i : Nat}
    (hi : i < s.trackPoints.length) (h : IdsOk s) :
    IdsOk (createLoopCore cfg s i (s.trackPoints.get ⟨i, hi⟩)) := by
  obtain ⟨hnd, hbd⟩ := h
  simp only [IdsOk, createLoopCore]
  exact splice_preserves_general hi (skipCountOf s.trackPoints i) hnd hbd
    (approachPointsOf_fresh _ _ _ _ _ _) (loopBodyPoints_fresh _ _ _ _ _)
    (transitionPointsOf_fresh _ _ _ _ _ _ _)
    (Nat.le_add_right _ _) (Nat.le_add_right _ _) (Nat.le_add_right _ _)

theorem createLoopBlendCore_preserves {s : CoasterState} {i : Nat}
    (hi : i < s.trackPoints.length) (h : IdsOk s) :
    IdsOk (createLoopBlendCore s i (s.trackPoints.get ⟨i, hi⟩)) := by
  obtain ⟨hnd, hbd⟩ := h
  simp only [IdsOk, createLoopBlendCore]
  constructor
  · simp only [List.map_append, List.append_assoc]
    refine nodup_insert_block ?_ ?_ ?_
    · rw [← List.map_append, List.take_append_drop]
      exact hnd
    · exact (blendLoopPoints_fresh _ _ _ _ _).1
    · intro x hx hx'
      rw [← List.map_append, List.take_append_drop] at hx
      obtain ⟨p, hp, rfl⟩ := List.mem_map.mp hx
      obtain ⟨k, hk, he⟩ := hbd p hp
      obtain ⟨k', hk', _, he'⟩ := (blendLoopPoints_fresh _ _ _ _ _).2 _ hx'
      have := mkId_injective (he.symm.trans he')
      omega
  · intro p hp
    simp only [List.append_assoc, List.mem_append] at hp
    rcases hp with hp | hp | hp
    · obtain ⟨k, hk, he⟩ := hbd p (List.Sublist.mem hp (List.take_sublist _ _))
      exact ⟨k, by omega, he⟩
    · obtain ⟨k, hk1, hk2, he⟩ :=
        (blendLoopPoints_fresh _ _ _ _ _).2 p.id (List.mem_map_of_mem TrackPoint.id hp)
      exact ⟨k, by omega, he⟩
    · obtain ⟨k, hk, he⟩ := hbd p (List.Sublist.mem hp (List.drop_sublist _ _))
      exact ⟨k, by omega, he⟩

theorem createLoopAtPoint_preserves (cfg : LoopConfig) (pid : String) {s : CoasterState}
    (h : IdsOk s) : IdsOk (createLoopAtPoint cfg pid s) := by
  rcases hfind : s.trackPoints.findIdx? (fun p => p.id == pid) with _ | i
  · simpa [createLoopAtPoint, hfind] using h
  · have hi : i < s.trackPoints.length := (List.findIdx?_eq_some_iff_findIdx_eq.mp hfind).1
    rw [createLoopAtPoint_found cfg hfind hi]
    exact createLoopCore_preserves cfg hi ⟨h.1, h.2⟩

theorem createLoopAtPointBlend_preserves (pid : String) {s : CoasterState}
    (h : IdsOk s) : IdsOk (createLoopAtPointBlend pid s) := by
  rcases hfind : s.trackPoints.findIdx? (fun p => p.id == pid) with _ | i
  · simpa [createLoopAtPointBlend, hfind] using h
  · have hi : i < s.trackPoints.length := (List.findIdx?_eq_some_iff_findIdx_eq.mp hfind).1
    rw [createLoopAtPointBlend_found hfind hi]
    exact createLoopBlendCore_preserves hi ⟨h.1, h.2⟩

theorem step_preserves (c : Cmd) {s : CoasterState} (h : IdsOk s) : IdsOk (step c s) := by
  cases c with
  | add pos => exact addTrackPoint_preserves pos h
  | update pid pos =>
      constructor
      · rw [show (step (.update pid pos) s).trackPoints.map TrackPoint.id =
            s.trackPoints.map TrackPoint.id from updateTrackPoint_ids pid pos s]
        exact h.1
      · intro q hq
        obtain ⟨q0, hq0, rfl⟩ := List.mem_map.mp hq
        obtain ⟨k, hk, he⟩ := h.2 q0 hq0
        refine ⟨k, hk, ?_⟩
        have hid : (if q0.id = pid then { q0 with position := pos } else q0).id = q0.id := by
          split <;> rfl
        rw [hid]
        exact he
  | updateTilt pid t =>
      constructor
      · rw [show (step (.updateTilt pid t) s).trackPoints.map TrackPoint.id =
            s.trackPoints.map TrackPoint.id from updateTrackPointTilt_ids pid t s]
        exact h.1
      · intro q hq
        obtain ⟨q0, hq0, rfl⟩ := List.mem_map.mp hq
        obtain ⟨k, hk, he⟩ := h.2 q0 hq0
        refine ⟨k, hk, ?_⟩
        have hid : (if q0.id = pid then { q0 with tilt := t } else q0).id = q0.id := by
          split <;> rfl
        rw [hid]
        exact he
  | remove pid => exact removeTrackPoint_preserves pid h
  | createLoop cfg pid => exact createLoopAtPoint_preserves cfg pid h
  | createLoopBlend pid => exact createLoopAtPointBlend_preserves pid h
  | clear => exact clearTrack_preserves h

theorem step_counter_le (c : Cmd) (s : CoasterState) :
    s.pointCounter ≤ (step c s).pointCounter := by
  cases c with
  | add pos => exact Nat.le_succ _
  | update pid pos => exact le_refl _
  | updateTilt pid t => exact le_refl _
  | remove pid => exact le_refl _
  | clear => exact le_refl _
  | createLoop cfg pid =>
      show s.pointCounter ≤ (createLoopAtPoint cfg pid s).pointCounter
      rcases hfind : s.trackPoints.findIdx? (fun p => p.id == pid) with _ | i
      · simp [createLoopAtPoint, hfind]
      · have hi : i < s.trackPoints.length :=
          (List.findIdx?_eq_some_iff_findIdx_eq.mp hfind).1
        rw [createLoopAtPoint_found cfg hfind hi]
        simp only [createLoopCore]
        exact le_trans (Nat.le_add_right _ _)
          (le_trans (Nat.le_add_right _ _) (Nat.le_add_right _ _))
  | createLoopBlend pid =>
      show s.pointCounter ≤ (createLoopAtPointBlend pid s).pointCounter
      rcases hfind : s.trackPoints.findIdx? (fun p => p.id == pid) with _ | i
      · simp [createLoopAtPointBlend, hfind]
      · have hi : i < s.trackPoints.length :=
          (List.findIdx?_eq_some_iff_findIdx_eq.mp hfind).1
        rw [createLoopAtPointBlend_found hfind hi]
        simp only [createLoopBlendCore]
        exact Nat.le_add_right _ _

theorem splice_mem_origin {pts : List TrackPoint} {i : Nat} (hi : i < pts.length)
    (skip : Nat) {AP LP TR : List TrackPoint} {c0 c1 c2 c3 : Nat}
    (hAP : FreshRange (AP.map TrackPoint.id) c0 c1)
    (hLP : FreshRange (LP.map TrackPoint.id) c1 c2)
    (hTR : FreshRange (TR.map TrackPoint.id) c2 c3)
    (h01 : c0 ≤ c1) (h12 : c1 ≤ c2) :
    ∀ p ∈ pts.take i ++ AP ++ [pts.get ⟨i, hi⟩] ++ LP ++ TR ++
      pts.drop (i + 1 + skip), p ∈ pts ∨ ∃ k, c0 < k ∧ p.id = mkId k := by
  intro p hp
  simp only [List.append_assoc, List.mem_append, List.mem_cons, List.mem_singleton,
    List.not_mem_nil, or_false] at hp
  rcases hp with hp | hp | hp | hp | hp | hp
  · exact Or.inl (List.Sublist.mem hp (List.take_sublist i pts))
  · obtain ⟨k, hk1, hk2, he⟩ := hAP.2 p.id (List.mem_map_of_mem TrackPoint.id hp)
    exact Or.inr ⟨k, by omega, he⟩
  · exact Or.inl (by rw [hp]; exact List.get_mem pts i hi)
  · obtain ⟨k, hk1, hk2, he⟩ := hLP.2 p.id (List.mem_map_of_mem TrackPoint.id hp)
    exact Or.inr ⟨k, by omega, he⟩
  · obtain ⟨k, hk1, hk2, he⟩ := hTR.2 p.id (List.mem_map_of_mem TrackPoint.id hp)
    exact Or.inr ⟨k, by omega, he⟩
  · exact Or.inl (List.Sublist.mem hp (List.drop_sublist _ pts))

theorem step_id_origin (c : Cmd) (s : CoasterState) :
    ∀ p ∈ (step c s).trackPoints,
      (∃ q ∈ s.trackPoints, q.id = p.id) ∨ ∃ k, s.pointCounter < k ∧ p.id = mkId k := by
  cases c with
  | add pos =>
      intro p hp
      rcases List.mem_append.mp hp with hp | hp
      · exact Or.inl ⟨p, hp, rfl⟩
      · simp only [List.mem_cons, List.not_mem_nil, or_false] at hp
        subst hp
        exact Or.inr ⟨s.pointCounter + 1, Nat.lt_succ_self _, rfl⟩
  | update pid pos =>
      intro p hp
      obtain ⟨q0, hq0, rfl⟩ := List.mem_map.mp hp
      refine Or.inl ⟨q0, hq0, ?_⟩
      split <;> rfl
  | updateTilt pid t =>
      intro p hp
      obtain ⟨q0, hq0, rfl⟩ := List.mem_map.mp hp
      refine Or.inl ⟨q0, hq0, ?_⟩
      split <;> rfl
  | remove pid =>
      intro p hp
      exact Or.inl ⟨p, List.mem_of_mem_filter hp, rfl⟩
  | clear =>
      intro p hp
      cases hp
  | createLoop cfg pid =>
      show ∀ p ∈ (createLoopAtPoint cfg pid s).trackPoints, _
      rcases hfind : s.trackPoints.findIdx? (fun q => q.id == pid) with _ | i
      · intro p hp
        rw [show createLoopAtPoint cfg pid s = s by simp [createLoopAtPoint, hfind]] at hp
        exact Or.inl ⟨p, hp, rfl⟩
      · have hi : i < s.trackPoints.length :=
          (List.findIdx?_eq_some_iff_findIdx_eq.mp hfind).1
        rw [createLoopAtPoint_found cfg hfind hi]
        simp only [createLoopCore]
        intro p hp
        rcases splice_mem_origin hi (skipCountOf s.trackPoints i)
          (approachPointsOf_fresh _ _ _ _ _ _)
          (loopBodyPoints_fresh _ _ _ _ _) (transitionPointsOf_fresh _ _ _ _ _ _ _)
          (Nat.le_add_right _ _) (Nat.le_add_right _ _) p hp with hold | hnew
        · exact Or.inl ⟨p, hold, rfl⟩
        · exact Or.inr hnew
  | createLoopBlend pid =>
      show ∀ p ∈ (createLoopAtPointBlend pid s).trackPoints, _
      rcases hfind : s.trackPoints.findIdx? (fun q => q.id == pid) with _ | i
      · intro p hp
        rw [show createLoopAtPointBlend pid s = s by
          simp [createLoopAtPointBlend, hfind]] at hp
        exact Or.inl ⟨p, hp, rfl⟩
      · have hi : i < s.trackPoints.length :=
          (List.findIdx?_eq_some_iff_findIdx_eq.mp hfind).1
        rw [createLoopAtPointBlend_found hfind hi]
        simp only [createLoopBlendCore]
        intro p hp
        simp only [List.append_assoc, List.mem_append] at hp
        rcases hp with hp | hp | hp
        · exact Or.inl ⟨p, List.Sublist.mem hp (List.take_sublist _ _), rfl⟩
        · obtain ⟨k, hk1, hk2, he⟩ := (blendLoopPoints_fresh _ _ _ _ _).2 p.id
            (List.mem_map_of_mem TrackPoint.id hp)
          exact Or.inr ⟨k, by omega, he⟩
        · exact Or.inl ⟨p, List.Sublist.mem hp (List.drop_sublist _ _), rfl⟩

theorem run_preserves (cs : List Cmd) {s : CoasterState} (h : IdsOk s) :
    IdsOk (run cs s) := by
  induction cs generalizing s with
  | nil => exact h
  | cons c cs ih => exact ih (step_preserves c h)

theorem run_counter_le (cs : List Cmd) (s : CoasterState) :
    s.pointCounter ≤ (run cs s).pointCounter := by
  induction cs generalizing s with
  | nil => exact le_refl _
  | cons c cs ih => exact le_trans (step_counter_le c s) (ih (step c s))

theorem initialState_ok : IdsOk initialState :=
  ⟨List.nodup_nil, by intro p hp; cases hp⟩

theorem id_absent_run (cs : List Cmd) {s : CoasterState} {k : Nat}
    (hk : k ≤ s.pointCounter) (habs : mkId k ∉ s.trackPoints.map TrackPoint.id) :
    mkId k ∉ (run cs s).trackPoints.map TrackPoint.id := by
  induction cs generalizing s with
  | nil => exact habs
  | cons c cs ih =>
      refine ih (le_trans hk (step_counter_le c s)) ?_
      intro hmem
      obtain ⟨p, hp, hpid⟩ := List.mem_map.mp hmem
      rcases step_id_origin c s p hp with ⟨q, hq, hqid⟩ | ⟨k', hk', he⟩
      · exact habs (hpid ▸ hqid ▸ List.mem_map_of_mem TrackPoint.id hq)
      · have := mkId_injective (he.symm.trans hpid)
        omega

/-- C9: from the empty initial state, any sequence of mutation commands
yields pairwise-distinct ids; the counter is monotone; and an id present
at some time but absent later never reappears (removed ids are never
reassigned, since fresh ids always exceed the counter value that bounded
every id assigned so far). -/
theorem c9_ids_unique_never_reused (cs : List Cmd) :
    ((run cs initialState).trackPoints.map TrackPoint.id).Nodup ∧
    (∀ cs₂ : List Cmd,
      (run cs initialState).pointCounter ≤ (run (cs ++ cs₂) initialState).pointCounter) ∧
    (∀ cs₂ cs₃ : List Cmd, ∀ p : TrackPoint,
      p ∈ (run cs initialState).trackPoints →
      p.id ∉ ((run (cs ++ cs₂) initialState).trackPoints.map TrackPoint.id) →
      p.id ∉ ((run ((cs ++ cs₂) ++ cs₃) initialState).trackPoints.map TrackPoint.id)) := by
  refine ⟨(run_preserves cs initialState_ok).1, ?_, ?_⟩
  · intro cs₂
    rw [run_append]
    exact run_counter_le cs₂ _
  · intro cs₂ cs₃ p hp habs
    obtain ⟨k, hk, he⟩ := (run_preserves cs initialState_ok).2 p hp
    rw [run_append ((cs ++ cs₂)) cs₃]
    rw [he] at habs ⊢
    refine id_absent_run cs₃ ?_ habs
    refine le_trans hk ?_
    rw [run_append]
    exact run_counter_le cs₂ _

/-- Witness for C9: add a point, remove it, add another; the removed id
`point-1` never reappears. -/
theorem c9_ids_unique_never_reused_witness :
    mkId 1 ∉ ((run (([Cmd.add ⟨0, 0, 0⟩] ++ [Cmd.remove (mkId 1)]) ++
      [Cmd.add ⟨1, 1, 1⟩]) initialState).trackPoints.map TrackPoint.id) := by
  refine (c9_ids_unique_never_reused [Cmd.add ⟨0, 0, 0⟩]).2.2 [Cmd.remove (mkId 1)]
    [Cmd.add ⟨1, 1, 1⟩] { id := mkId 1, position := ⟨0, 0, 0⟩, tilt := 0 } ?_ ?_
  · simp [run, step, addTrackPoint, initialState]
  · simp [run, step, addTrackPoint, removeTrackPoint, initialState]

end Coaster
